import Mathlib

/-!
Verification of the initialization core (`src/initialization/core.py`) of the
OGGM historical-run initialization pipeline.

Shallow embedding conventions:
* Python floats are modelled as exact rationals (`ℚ`); the decimal constants
  `0.05`, `1e-4`, `1e-3`, `0.000001`, `125` of the source become the exact
  rationals `1/20`, `1/10000`, `1/1000`, `1/1000000`, `125`.
* Python `round(x, 2)` (round half to even at two decimals) is modelled by
  exact half-to-even decimal rounding on `ℚ`.
* The external forward-simulation oracle (OGGM `tasks.run_random_climate`,
  `tasks.run_from_climate_data`, `FileModel`) is an opaque parameter: a
  function producing either a result (volume/area series) or `none` /
  an error for the "glacier exceeds boundaries" failure.
* Stateful file-system behaviour (result pickles, diagnostics, file deletion)
  is modelled by explicit state passing on small state structures.

Batteries marks the arithmetic of `Rat` as irreducible, which prevents the
`decide` tactic from evaluating concrete runs of the embedded functions; the
kernel itself checks such proofs in full regardless of reducibility
attributes, so restoring the default reducibility only lets elaboration see
what the kernel verifies anyway.
-/

set_option allowUnsafeReducibility true
attribute [semireducible] Rat.mul Rat.add Rat.sub Rat.inv Rat.ofScientific

set_option maxRecDepth 100000

/-! ## StabilizationProber: `_single_time_to_stable` (core.py lines 29-84)

The while-loop chains 100-year windows.  `v k` abstracts
`FileModel(rp).volume_m3_ts()[99]` of the k-th window, i.e. the ice volume at
the end of the window covering simulation years `100*(k-1) .. 100*k`.
`stableLoop` returns the value of the Python variable `year` after the loop
(`year` is incremented to `year+100` before the 5%-change test, and the loop
breaks with that incremented value). -/

def stableLoop (v : ℕ → ℚ) : ℕ → ℕ → ℕ
  | 0, year => year
  | fuel + 1, year =>
    if year < 10001 then
      let y2 := year + 100
      if |v (y2 / 100) - v (y2 / 100 - 1)| / (v (y2 / 100 - 1) + 1 / 1000000) < 1 / 20 then
        y2
      else
        stableLoop v fuel y2
    else
      year

/-- Value recorded into `diagnostics['years_to_stable']`: `year + 100` when the
loop left `year < 10001`, nothing otherwise (core.py lines 82-83).  The fuel
`101` is enough for the full `while year < 10001` loop starting at 100. -/
def timeToStable (v : ℕ → ℚ) : Option ℕ :=
  let Y := stableLoop v 101 100
  if Y < 10001 then some (Y + 100) else none

/-- Per-glacier on-disk state touched by `_single_time_to_stable`:
whether `model_flowlines.pkl` exists, the diagnostics entry
`years_to_stable`, how many forward simulations have been run, and which
intermediate `model_geometry_*00.nc` files are present. -/
structure GDirState where
  hasFlowlines : Bool
  diag : Option ℕ
  simCount : ℕ
  interFiles : List ℕ
deriving DecidableEq

/-- Embedding of `_single_time_to_stable` as a state transformer.  The guard
`os.path.isfile(gdir.dir+'/model_flowlines.pkl')` wraps the whole body: when
the pickle is absent nothing at all happens.  Otherwise the loop runs
(`Y/100` forward simulations), every intermediate `model_geometry_*00.nc` /
`model_diagnostics_*00.nc` file is deleted, and the diagnostics entry is
written only when `year < 10001`. -/
def single_time_to_stable (v : ℕ → ℚ) (s : GDirState) : GDirState :=
  if s.hasFlowlines then
    let Y := stableLoop v 101 100
    let s1 : GDirState :=
      { s with simCount := s.simCount + Y / 100, interFiles := [] }
    if Y < 10001 then { s1 with diag := some (Y + 100) } else s1
  else s

/-! ## CandidateEvaluator cache: `find_possible_glaciers` (lines 384-391) and
`evaluation` (lines 601-604)

`find_possible_glaciers` returns the unpickled result table as soon as the
result pickle for the cache key (glacier, y0, baseline climate, qc months,
prcp scaling factor) exists; otherwise it runs
generation/identification/evaluation, and `evaluation` writes the pickle
only when `delete` is false. -/

/-- On-disk state for one cache key: the result pickle (if written) and a
count of pipeline executions (generation + evaluation fan-outs). -/
structure EvalState where
  resultPickle : Option (List ℚ)
  simCount : ℕ
deriving DecidableEq

/-- Embedding of the caching skeleton of `find_possible_glaciers`:
`compute` abstracts the result table produced by the
generation/identification/evaluation pipeline for the fixed parameters. -/
def find_possible_glaciers (compute : List ℚ) (delete : Bool) (s : EvalState) :
    List ℚ × EvalState :=
  match s.resultPickle with
  | some results => (results, s)
  | none =>
    let s1 : EvalState := { s with simCount := s.simCount + 1 }
    if delete then (compute, s1)
    else (compute, { s1 with resultPickle := some compute })

/-- Volume profile with a never-stable (5%-violating) alternation for the
first 99 windows and a stable window exactly at the 10000-year cap. -/
def vCap : ℕ → ℚ := fun k =>
  if k < 100 then (if k % 2 = 0 then 0 else 1) else 1

/-! ## MassBalanceCalibrator: `find_mb_offset` (core.py lines 202-252) and
`_single_calibration_run` (lines 100-138)

The two-stage simulation is abstracted by `run : ℚ → Option ℚ`: for an offset
it either yields the simulated area at the observation year
(`FileModel.area_km2_ts()[ye]`) or `none` when OGGM fails and
`_single_calibration_run` returns the error string from `log.txt`.  A log
entry is `(mb_offset, area_diff)` with `area_diff = none` standing for the
`-np.inf` written on failure. -/

/-- Round half to even: the exact-arithmetic semantics of Python `round`. -/
def roundHE (q : ℚ) : ℤ :=
  let n := q.floor
  let f := q - n
  if f < 1 / 2 then n else if 1 / 2 < f then n + 1 else if n % 2 = 0 then n else n + 1

/-- Embedding of `round(x, 2)`. -/
def round2 (q : ℚ) : ℚ := (roundHE (100 * q) : ℚ) / 100

/-- The `while i < max_it` loop of `find_mb_offset`.  Each iteration evaluates
the midpoint (rounded to two decimals), appends `(mb_offset, area_diff)` to
the iteration log (`area_diff = none` models `-np.inf` for a failed run),
breaks when `abs(diff) < 1e-4` or when the bracket is at most `0.5` wide and
`abs(diff) < 1e-3` (`abs(-np.inf)` is `+inf`, so a failed iteration never
breaks), and otherwise moves `bounds[0]` up on `diff < 0` (which includes
`-inf`) or `bounds[1]` down.  Returns the final log and whether the loop
ended through the tolerance test. -/
def calibLoop (run : ℚ → Option ℚ) (A : ℚ) :
    ℕ → ℚ → ℚ → List (ℚ × Option ℚ) → List (ℚ × Option ℚ) × Bool
  | 0, _, _, log => (log, false)
  | fuel + 1, b0, b1, log =>
    let mid := round2 ((b0 + b1) / 2)
    let diff := (run mid).map (fun area => A - area)
    let log2 := log ++ [(mid, diff)]
    match diff with
    | some d =>
      if |d| < 1 / 10000 ∨ (b1 - b0 ≤ 1 / 2 ∧ |d| < 1 / 1000) then (log2, true)
      else if d < 0 then calibLoop run A fuel mid b1 log2
      else calibLoop run A fuel b0 mid log2
    | none => calibLoop run A fuel mid b1 log2

/-- Comparison used by `df.area_diff.abs().idxmin()`: `none` stands for the
`-np.inf` of a failed iteration, whose absolute value `+inf` exceeds every
finite value; `idxmin` keeps the first occurrence of the minimum, so the
fold below replaces the current best only on strict decrease. -/
def absKeyLt : Option ℚ → Option ℚ → Bool
  | some a, some b => decide (|a| < |b|)
  | some _, none => true
  | none, _ => false

/-- Propositional companion of `absKeyLt`: "at most as large an absolute
area difference" with `none` again read as `+inf`. -/
def keyLE : Option ℚ → Option ℚ → Prop
  | some a, some b => |a| ≤ |b|
  | none, some _ => False
  | _, none => True

/-- First row of the iteration log attaining the minimal `abs(area_diff)` —
the `df.iloc[df.area_diff.abs().idxmin()]` selection. -/
def selectBest : List (ℚ × Option ℚ) → ℚ × Option ℚ
  | [] => (0, none)
  | e :: rest => rest.foldl (fun best x => if absKeyLt x.2 best.2 then x else best) e

/-- Result of one `find_mb_offset` call: the iteration log
(`experiment_iteration.csv`), whether the loop converged (left through the
tolerance test), and the selected best row, whose offset is the one whose
calibration files are retained. -/
structure CalibResult where
  log : List (ℚ × Option ℚ)
  conv : Bool
  best : ℚ × Option ℚ

/-- Embedding of `find_mb_offset` with the default bracket `[-1000, 1000]`
and `max_it = 15`. -/
def find_mb_offset (run : ℚ → Option ℚ) (A : ℚ) : CalibResult :=
  let r := calibLoop run A 15 (-1000) 1000 []
  ⟨r.1, r.2, selectBest r.1⟩

/-- Iteration-log trace of the loop when every simulation fails: all
`area_diff` are `-inf`, so every iteration moves `bounds[0]` up. -/
def noneTrace : ℕ → ℚ → ℚ → List (ℚ × Option ℚ)
  | 0, _, _ => []
  | fuel + 1, b0, b1 =>
    let mid := round2 ((b0 + b1) / 2)
    (mid, none) :: noneTrace fuel mid b1

/-- Monotone (strictly decreasing in the offset) calibration oracle whose
target area 100 is attained exactly at offset `1/3`; the area error of any
two-decimal offset is at least `1/300`. -/
def cRun : ℚ → Option ℚ := fun x => some (100 - (x - 1 / 3))

/-- Monotonicity (in the sense of the claim: the simulated observation-year
area is monotone in the mass-balance offset) of the oracle `cRun`. -/
def cRunMono : Prop := ∀ x y : ℚ, x ≤ y → (100 - (y - 1 / 3)) ≤ (100 - (x - 1 / 3))

/-- The tolerance part of claim C1 at a given oracle and observed area: the
selected offset's area difference is below `1e-4`, or below `1e-3` (the
claim grants the weaker bound only once the bracket is at most `0.5` wide,
so refuting the plain disjunction refutes the claim a fortiori). -/
def claimC1 (run : ℚ → Option ℚ) (A : ℚ) : Prop :=
  ∃ d, (find_mb_offset run A).best.2 = some d ∧ (|d| < 1 / 10000 ∨ |d| < 1 / 1000)

/-! ## CandidateGenerator: `generation` (core.py lines 496-532)

A member's random-climate run is abstracted by
`runs : ℚ → Option (List ℚ)`: for a temperature bias it yields the member's
volume series `FileModel(p).volume_m3_ts()` when the run succeeds (or its
output file parses), and `none` when `_run_random_task` returns `None`.
`_run_random_parallel` keeps exactly the successful members, in input order,
so the first-stage ensemble table contains exactly the biases of
`np.arange(-3, 2, 0.05)` whose run succeeded. -/

/-- First-stage bias grid `[b.round(3) for b in np.arange(-3, 2, 0.05)]`:
100 exact values `-3 + k/20` (the float `round(3)` is the identity here). -/
def biasGrid1 : List ℚ := (List.range 100).map (fun k => -3 + (k : ℚ) * (5 / 100))

/-- Minimum of a pandas column (`none` on an empty frame, where `.min()` is
NaN and compares unequal to everything). -/
def colMin : List ℚ → Option ℚ
  | [] => none
  | x :: xs => some (xs.foldl min x)

/-- Temperature biases present in the first-stage ensemble table: the grid
filtered to the successful runs. -/
def ensembleBiases (runs : ℚ → Option (List ℚ)) : List ℚ :=
  biasGrid1.filter (fun b => (runs b).isSome)

/-- Guard of the `[-5, -3)` extension,
`random_run_list['temp_bias'].min() == -3` (core.py line 513). -/
def downExtended (runs : ℚ → Option (List ℚ)) : Prop :=
  colMin (ensembleBiases runs) = some (-3)

/-- Minimum simulated volume (`fmod.volume_m3_ts().min()`) of the member
with temperature bias `b`, when that run succeeded. -/
def memberMinVol (runs : ℚ → Option (List ℚ)) (b : ℚ) : Option ℚ :=
  (runs b).bind colMin

/-- The condition claim C3 asserts to be equivalent to the `[-5, -3)`
extension: the bias `-3` member exists and its minimum simulated volume is
nonzero. -/
def nonzeroMinVol (runs : ℚ → Option (List ℚ)) (b : ℚ) : Prop :=
  ∃ q, memberMinVol runs b = some q ∧ q ≠ 0

/-- Claim C3 as stated, for one oracle. -/
def claimC3 (runs : ℚ → Option (List ℚ)) : Prop :=
  downExtended runs ↔ nonzeroMinVol runs (-3)

/-- Oracle on which every run succeeds with constant volume series `[0]`:
the bias `-3` member exists but its minimum volume is exactly zero. -/
def allZeroRuns : ℚ → Option (List ℚ) := fun _ => some [0]

/-! ## CandidateIdentifier: `identification` (core.py lines 322-381)

The claim C4 is about lines 371-381: selection from the already-restricted
(`time >= t_stag`) concatenated volume table `df`, one row per
(time, suffix, volume_m3).  `np.linspace(lo, hi, n)` returns `[lo]` for
`n = 1`.  Pandas `argsort` on the distance column followed by `[:1]` takes
a row of minimal distance (first such row in the untied case modelled
here); repeated indices are skipped, the selected rows are sorted by
(suffix, time) and deduplicated, and `[['time', 'suffix']]` is returned. -/

/-- One row of the restricted ensemble volume table.  `sfx` is the ensemble
member's output filesuffix, abstracted to a label ordered like the string
sort pandas performs. -/
structure CRow where
  time : ℕ
  sfx : ℕ
  vol : ℚ
deriving DecidableEq

/-- Column minimum `df.volume_m3.min()` (0 only for the empty frame). -/
def volMin (rows : List CRow) : ℚ := (colMin (rows.map (fun r => r.vol))).getD 0

/-- Column maximum `df.volume_m3.max()`. -/
def colMax : List ℚ → Option ℚ
  | [] => none
  | x :: xs => some (xs.foldl max x)

/-- Column maximum of the volume column. -/
def volMax (rows : List CRow) : ℚ := (colMax (rows.map (fun r => r.vol))).getD 0

/-- Embedding of `np.linspace(a, b, n)` (endpoint included; `[a]` for
`n = 1`). -/
def linspace (a b : ℚ) (n : ℕ) : List ℚ :=
  if n = 0 then []
  else if n = 1 then [a]
  else (List.range n).map (fun i => a + (i : ℚ) * (b - a) / ((n : ℚ) - 1))

/-- Index of the first row satisfying `p` (0 on no match, unused). -/
def firstIdxP (p : CRow → Bool) : List CRow → ℕ
  | [] => 0
  | r :: t => if p r then 0 else firstIdxP p t + 1

/-- Positional index selected by
`df.iloc[(df['volume_m3'] - val).abs().argsort()][:1].index[0]`: a row at
minimal distance `|volume - val|` (the first one; numpy's default argsort
is unstable, but the claims are settled on tie-free tables). -/
def closestIdx (rows : List CRow) (val : ℚ) : ℕ :=
  let dmin := (colMin (rows.map (fun r => |r.vol - val|))).getD 0
  firstIdxP (fun r => decide (|r.vol - val| = dmin)) rows

/-- The `for val in np.linspace(...)` accumulation of distinct indices. -/
def selectIdxs (rows : List CRow) (targets : List ℚ) : List ℕ :=
  targets.foldl
    (fun acc val =>
      let i := closestIdx rows val
      if i ∈ acc then acc else acc ++ [i])
    []

/-- Strict (suffix, time) key order for `sort_values(['suffix', 'time'])`. -/
def candKeyLt (a b : CRow) : Bool :=
  a.sfx < b.sfx ∨ (a.sfx = b.sfx ∧ a.time < b.time)

/-- Ordered insertion for `sortCand`. -/
def insertCand (x : CRow) : List CRow → List CRow
  | [] => [x]
  | y :: ys => if candKeyLt y x then y :: insertCand x ys else x :: y :: ys

/-- Stable sort by (suffix, time) — `candidates.sort_values(['suffix',
'time'])`; rows in the settled claims have distinct keys, so stability
differences of pandas quicksort cannot show. -/
def sortCand : List CRow → List CRow
  | [] => []
  | x :: xs => insertCand x (sortCand xs)

/-- `candidates.drop_duplicates()` keeping first occurrences. -/
def dedupRows (l : List CRow) : List CRow :=
  l.foldl (fun acc r => if r ∈ acc then acc else acc ++ [r]) []

/-- Embedding of the candidate-sampling part of `identification`
(core.py lines 371-381) on the restricted volume table. -/
def identification (rows : List CRow) (n : ℕ) : List (ℕ × ℕ) :=
  let targets := linspace (volMin rows) (volMax rows) n
  let cands := (selectIdxs rows targets).filterMap (fun i => rows.get? i)
  (dedupRows (sortCand cands)).map (fun r => (r.time, r.sfx))

/-- Modelled from the spec's words for claim C4 (comparison definition):
"the (time, member) pair whose volume is closest to the midpoint between
the ensemble's minimum and maximum restricted volumes". -/
def specMidpointChoice (rows : List CRow) : Option (ℕ × ℕ) :=
  (rows.get? (closestIdx rows ((volMin rows + volMax rows) / 2))).map
    (fun r => (r.time, r.sfx))

/-- Restricted volume table on which the code's `n = 1` choice (volume 0,
the minimum) differs from the spec's midpoint choice (volume 4). -/
def exRowsC4 : List CRow := [⟨0, 0, 0⟩, ⟨1, 1, 4⟩, ⟨2, 2, 10⟩]

/-! ## CandidateEvaluator pruning selections: `find_possible_glaciers`
(core.py lines 412-458)

One row per evaluated candidate of the result table, with the fields the
median selections read: the candidate's file name (abstracted to a label),
its two fitness scores and its length. -/

/-- Row of the evaluator's result table. -/
structure FRow where
  name : ℕ
  fitness : ℚ
  fitness_fls : ℚ
  length : ℚ
deriving DecidableEq

/-- Ordered insertion for `sortByLength`. -/
def insertLen (x : FRow) : List FRow → List FRow
  | [] => [x]
  | y :: ys => if y.length < x.length then y :: insertLen x ys else x :: y :: ys

/-- Stable sort by length — `results.sort_values(by='length')` (pandas uses
an unstable quicksort; the settled claims use distinct lengths). -/
def sortByLength : List FRow → List FRow
  | [] => []
  | x :: xs => insertLen x (sortByLength xs)

/-- Ordered insertion of a rational. -/
def insertQ (x : ℚ) : List ℚ → List ℚ
  | [] => [x]
  | y :: ys => if y < x then y :: insertQ x ys else x :: y :: ys

/-- Sorted copy of a rational list (for the quantile). -/
def sortQ : List ℚ → List ℚ
  | [] => []
  | x :: xs => insertQ x (sortQ xs)

/-- Pandas `Series.quantile(0.05)` with the default linear interpolation:
position `(m-1) * 0.05` between the sorted values. -/
def quantile05 (vals : List ℚ) : ℚ :=
  let s := sortQ vals
  let m := s.length
  if m = 0 then 0
  else
    let pos : ℚ := ((m : ℚ) - 1) * (5 / 100)
    let i : ℕ := pos.floor.toNat
    let g : ℚ := pos - (i : ℚ)
    match s.get? i, s.get? (i + 1) with
    | some a, some b => a + g * (b - a)
    | some a, none => a
    | _, _ => 0

/-- Python `int((l-1)/2)` for odd `l`, `int(l/2)` for even `l` — the median
index of `find_possible_glaciers` (lines 435-439 and 452-456). -/
def medianIdx (l : ℕ) : ℕ := if l % 2 = 1 then (l - 1) / 2 else l / 2

/-- The `results_exp` block (core.py lines 422-440): returns the final value
of the Python variable `results_exp` (the 5th-percentile acceptable subset
sorted by length when the branch ran, the unsorted — empty or not —
acceptable subset otherwise) together with the `median_exp` selection. -/
def expBlock (results : List FRow) : List FRow × Option ℕ :=
  let re0 := results.filter (fun r => decide (r.fitness ≤ 1))
  if re0.length > 0 then
    let q := quantile05 (re0.map (fun r => r.fitness))
    let re1 := re0.filter (fun r => decide (r.fitness ≤ q))
    let re2 := sortByLength re1
    (re2, (re2.get? (medianIdx re2.length)).map (fun r => r.name))
  else (re0, none)

/-- The `results_fls` block as written (core.py lines 442-458): computes the
fls-based 5th-percentile subset and its median *index*, but then reads the
median row out of `results_exp` (`save.update({'median_fls':
results_exp.iloc[index_fls]...})`, line 458).  `none` covers both "branch
not taken" and the `IndexError` raised when `results_exp` is shorter than
`index_fls + 1`. -/
def median_fls_code (results : List FRow) : Option ℕ :=
  let resultsExp := (expBlock results).1
  let rf0 := results.filter (fun r => decide (r.fitness_fls ≤ 1))
  if rf0.length > 0 then
    let q := quantile05 (rf0.map (fun r => r.fitness_fls))
    let rf1 := rf0.filter (fun r => decide (r.fitness_fls ≤ q))
    let rf2 := sortByLength rf1
    (resultsExp.get? (medianIdx rf2.length)).map (fun r => r.name)
  else none

/-- Modelled from the spec's words for claim C7 (comparison definition):
"its 5th-percentile-fitness subset ... and that subset's length-median
member", for the fls fitness: the median row of the fls-based subset
itself. -/
def median_fls_spec (results : List FRow) : Option ℕ :=
  let rf0 := results.filter (fun r => decide (r.fitness_fls ≤ 1))
  if rf0.length > 0 then
    let q := quantile05 (rf0.map (fun r => r.fitness_fls))
    let rf1 := rf0.filter (fun r => decide (r.fitness_fls ≤ q))
    let rf2 := sortByLength rf1
    (rf2.get? (medianIdx rf2.length)).map (fun r => r.name)
  else none

/-- Result table on which code and spec disagree: rows 1-2 are acceptable
only for the observation fitness, rows 3-4 only for the fls fitness. -/
def exTableC7 : List FRow :=
  [⟨1, 1 / 10, 5, 10⟩, ⟨2, 2 / 10, 5, 20⟩, ⟨3, 5, 1 / 10, 30⟩, ⟨4, 5, 2 / 10, 40⟩]

/-! ## Fitness: `fitness_value` (core.py lines 637-664)

A `FlowlineState` advanced to the observation year is a list of flowline
segments, each with its `surface_h` and `widths` arrays (`nx` is the length
of the along-flow grid, i.e. of `surface_h`). -/

/-- One flowline segment of a model state at the observation year. -/
structure Seg where
  surface_h : List ℚ
  widths : List ℚ
deriving DecidableEq

/-- Elementwise `np.sum(abs(a - b) ** 2)` (the arrays compared always have
equal shapes; numpy raises on a shape mismatch, which `fitnessAux` maps to
`none`). -/
def sqDiffSum (a b : List ℚ) : ℚ :=
  ((a.zip b).map (fun p => (p.1 - p.2) ^ 2)).sum

/-- The `for i in range(len(model1.fls))` accumulation of `fitness_value`:
sum of squared surface-elevation and width differences, and the grid-point
count `m` (summing `fls1[i].nx`).  `none` models the `IndexError` when
`model2` has fewer flowlines than `model1` and the numpy `ValueError` on a
shape mismatch within a segment pair. -/
def fitnessAux : List Seg → List Seg → Option (ℚ × ℕ)
  | [], _ => some (0, 0)
  | _ :: _, [] => none
  | s1 :: t1, s2 :: t2 =>
    if s1.surface_h.length = s2.surface_h.length ∧ s1.widths.length = s2.widths.length then
      (fitnessAux t1 t2).map
        (fun p =>
          (p.1 + sqDiffSum s1.surface_h s2.surface_h + sqDiffSum s1.widths s2.widths,
            p.2 + s1.surface_h.length))
    else none

/-- Embedding of `fitness_value` on the two states already advanced to the
observation year: the accumulated sum divided by `m`, divided by 125
(`none` also models the `ZeroDivisionError` on an empty flowline list). -/
def fitness_value (fls1 fls2 : List Seg) : Option ℚ :=
  (fitnessAux fls1 fls2).bind
    (fun p => if p.2 = 0 then none else some (p.1 / (p.2 : ℚ) / 125))

/-- Structural compatibility of two states of the same glacier: same number
of flowlines, and pairwise equal `surface_h` and `widths` array shapes. -/
def flsMatch : List Seg → List Seg → Bool
  | [], [] => true
  | s1 :: t1, s2 :: t2 =>
    decide (s1.surface_h.length = s2.surface_h.length) &&
      decide (s1.widths.length = s2.widths.length) && flsMatch t1 t2
  | _, _ => false

/-- Concrete pair of single-segment states used as the symmetry witness. -/
def exState1 : List Seg := [⟨[1, 2], [3, 4]⟩]

/-- Second state of the symmetry witness. -/
def exState2 : List Seg := [⟨[2, 2], [3, 5]⟩]

/-! ## Ensemble filename round-trip: `_run_random_parallel` (core.py lines
256-275) and `_run_random_task` (lines 278-309)

Strings are modelled as `List Char`. `_run_random_task` builds
`suffix = str(y0) + '_random_' + str(seed) + '_' + str(temp_bias)` and
returns the path
`os.path.join(gdir.dir, str(y0), 'model_geometry' + suffix + '.nc')` on
success; `_run_random_parallel` recovers seed and bias from the returned
path by `rp.split('.nc')[0].split('_')[-2:]` and rebuilds the suffix. -/

/-- Character-list strings of the embedding. -/
abbrev Str := List Char

/-- Python `s.split(c)` for a single-character separator. -/
def splitOnC (c : Char) : Str → List Str
  | [] => [[]]
  | x :: xs =>
    match splitOnC c xs with
    | [] => [[]]
    | h :: t => if x = c then [] :: h :: t else (x :: h) :: t

/-- The extension pattern `.nc`. -/
def ncPat : Str := ['.', 'n', 'c']

/-- Python `rp.split('.nc')[0]`: the prefix before the first occurrence of
`.nc` (the whole string when there is none). -/
def takeBeforeNc : Str → Str
  | [] => []
  | x :: xs => if ncPat.isPrefixOf (x :: xs) then [] else x :: takeBeforeNc xs

/-- Whether `.nc` occurs anywhere in the string. -/
def hasNc : Str → Bool
  | [] => false
  | x :: xs => ncPat.isPrefixOf (x :: xs) || hasNc xs

/-- Python str(float) for the values of the generation bias grids: all are
exact multiples of 0.05 printed with their decimals, trailing zeros
trimmed, at least one fractional digit kept (`-3.0`, `-2.95`, `0.0`,
`2.05`, ...). -/
def renderBias (q : ℚ) : Str :=
  let sign : Str := if q < 0 then ['-'] else []
  let a : ℚ := |q|
  let ip : ℕ := a.floor.toNat
  let fr : ℕ := ((a - (ip : ℚ)) * 100).floor.toNat
  let frs : Str :=
    if fr % 10 = 0 then (Nat.repr (fr / 10)).toList
    else if fr < 10 then '0' :: (Nat.repr fr).toList
    else (Nat.repr fr).toList
  sign ++ (Nat.repr ip).toList ++ '.' :: frs

/-- Accumulating decimal-digit parser. -/
def parseNatAcc : Str → ℕ → Option ℕ
  | [], acc => some acc
  | c :: cs, acc => if c.isDigit then parseNatAcc cs (10 * acc + (c.toNat - 48)) else none

/-- Unsigned part of Python `float(s)` for plain decimal strings. -/
def parsePos (t : Str) : Option ℚ :=
  let ip := t.takeWhile (fun c => c ≠ '.')
  let rest := t.dropWhile (fun c => c ≠ '.')
  match rest with
  | [] => (parseNatAcc ip 0).map (fun n => (n : ℚ))
  | _ :: frac =>
    match parseNatAcc ip 0, parseNatAcc frac 0 with
    | some n, some f => some ((n : ℚ) + (f : ℚ) / (10 : ℚ) ^ frac.length)
    | _, _ => none

/-- Python `float(s)` for the decimal strings at hand (exact value). -/
def parseDec : Str → Option ℚ
  | '-' :: rest => (parsePos rest).map (fun q => -q)
  | s => parsePos s

/-- Output filesuffix built by `_run_random_task` (line 285). -/
def taskSuffix (y0s seedS biasS : Str) : Str :=
  y0s ++ ("_random_".toList) ++ seedS ++ '_' :: biasS

/-- The returned path without its trailing `.nc` (line 287). -/
def taskPathBody (dirS y0s seedS biasS : Str) : Str :=
  dirS ++ '/' :: y0s ++ '/' :: ("model_geometry".toList) ++ taskSuffix y0s seedS biasS

/-- Full path returned by a successful `_run_random_task`. -/
def taskPath (dirS y0s seedS biasS : Str) : Str :=
  taskPathBody dirS y0s seedS biasS ++ ncPat

/-- Ensemble-table row assembled by `_run_random_parallel` (lines 269-273):
the parsed seed string, the parsed `float(temp_bias)` and the rebuilt
suffix. -/
structure ERow where
  seed : Str
  temp_bias : Option ℚ
  suffix : Str
deriving DecidableEq

/-- Embedding of the path parsing of `_run_random_parallel` for one
returned path. -/
def parseRow (y0s : Str) (rp : Str) : ERow :=
  let base := takeBeforeNc rp
  let toks := splitOnC '_' base
  let tb := toks.getLastD []
  let sd := toks.dropLast.getLastD []
  ⟨sd, parseDec tb, y0s ++ ("_random_".toList) ++ sd ++ '_' :: tb⟩

/-- All temperature biases `generation` can request: `np.arange(-3, 2,
0.05)` (100 values `-3 .. 1.95`), the `[-5, -3)` extension grid
`np.arange(-5, -3, 0.05)` (40 values `-5 .. -3.05`), and the upward
extension grid `np.arange(2.05, 3, 0.05)` — which in IEEE doubles has
`ceil((3 - 2.05)/0.05) = ceil(19.000000000000004) = 20` elements, the last
being `2.05 + 19*0.05 = 3.0000000000000004`, kept as `3.0` by
`b.round(3)`; so that grid contributes the 20 values `2.05 .. 3.0`. -/
def allGenBiases : List ℚ :=
  ((List.range 100).map (fun k => -3 + (k : ℚ) * (5 / 100))) ++
    ((List.range 40).map (fun k => -5 + (k : ℚ) * (5 / 100))) ++
    ((List.range 20).map (fun k => 205 / 100 + (k : ℚ) * (5 / 100)))

/-! # Theorems -/

/-! ## Helper lemmas for the stabilization prober -/

/-- Every run of the stabilization loop stays on the 100-year grid between
its starting year and 10100. -/
theorem stableLoop_bounds (v : ℕ → ℚ) :
    ∀ fuel year, year % 100 = 0 → 100 ≤ year → year ≤ 10100 →
      stableLoop v fuel year % 100 = 0 ∧ year ≤ stableLoop v fuel year ∧
        stableLoop v fuel year ≤ 10100 := by
  intro fuel
  induction fuel with
  | zero => intro year h1 h2 h3; simpa [stableLoop] using ⟨h1, h3⟩
  | succ n ih =>
    intro year h1 h2 h3
    simp only [stableLoop]
    by_cases hy : year < 10001
    · simp only [hy, if_true]
      by_cases hc :
          |v ((year + 100) / 100) - v ((year + 100) / 100 - 1)| /
              (v ((year + 100) / 100 - 1) + 1 / 1000000) < 1 / 20
      · simp only [hc, if_true]; omega
      · simp only [hc, if_false]
        have h4 := ih (year + 100) (by omega) (by omega) (by omega)
        omega
    · simp only [hy, if_false]; omega

/-! ## C2 -/

/-- C2 (corrected): every value the stabilization prober records in
`years_to_stable` is a multiple of 100, at least 200, and at most 10100
(not 10000: a glacier that first meets the 5% test on the window ending at
year 10000 gets `10000 + 100` recorded). -/
theorem years_to_stable_bounds (v : ℕ → ℚ) (n : ℕ) (h : timeToStable v = some n) :
    n % 100 = 0 ∧ 200 ≤ n ∧ n ≤ 10100 := by
  unfold timeToStable at h
  have hb := stableLoop_bounds v 101 100 (by norm_num) (le_refl 100) (by norm_num)
  by_cases hlt : stableLoop v 101 100 < 10001
  · simp only [hlt, if_true, Option.some.injEq] at h
    omega
  · simp [hlt] at h

/-- Witness for C2: a glacier that stabilizes in the first window records
300 = 200 + 100, within the proven bounds. -/
theorem years_to_stable_bounds_witness :
    timeToStable (fun _ => (0 : ℚ)) = some 300 ∧
      (300 % 100 = 0 ∧ 200 ≤ 300 ∧ 300 ≤ 10100) :=
  ⟨by decide, years_to_stable_bounds (fun _ => (0 : ℚ)) 300 (by decide)⟩

/-- Counterexample for C2 as stated: a glacier whose volume first meets the
5% test on the window ending at the 10000-year cap records
`years_to_stable = 10100 > 10000`. -/
theorem years_to_stable_cap_counterexample :
    timeToStable vCap = some 10100 ∧ ¬(10100 ≤ 10000) :=
  ⟨by decide, by decide⟩

/-! ## C10 -/

/-- C10 (confirmed): when `model_flowlines.pkl` is absent,
`_single_time_to_stable` leaves the glacier directory entirely unchanged:
no simulation runs, no file deletions, no diagnostics write. -/
theorem single_time_to_stable_no_flowlines (v : ℕ → ℚ) (s : GDirState)
    (h : s.hasFlowlines = false) : single_time_to_stable v s = s := by
  simp [single_time_to_stable, h]

/-- Witness for C10 on a concrete glacier state without the flowlines
pickle. -/
theorem single_time_to_stable_no_flowlines_witness :
    (GDirState.mk false (some 500) 3 [100]).hasFlowlines = false ∧
      single_time_to_stable (fun _ => (0 : ℚ)) (GDirState.mk false (some 500) 3 [100]) =
        GDirState.mk false (some 500) 3 [100] :=
  ⟨rfl, single_time_to_stable_no_flowlines _ _ rfl⟩

/-! ## C6 -/

/-- C6 (corrected, non-pruning mode): with `delete = False` the first call
writes the result pickle and a second identical invocation returns exactly
the cached table and state, running no simulation. -/
theorem find_possible_glaciers_idempotent (compute : List ℚ) (s : EvalState) :
    find_possible_glaciers compute false (find_possible_glaciers compute false s).2 =
      ((find_possible_glaciers compute false s).1,
        (find_possible_glaciers compute false s).2) := by
  cases h : s.resultPickle <;> simp [find_possible_glaciers, h]

/-- Counterexample for C6 as stated: in pruning mode (`delete = True`) no
result pickle is written, so a second invocation with identical parameters
re-runs the pipeline (the simulation count reaches 2). -/
theorem evaluator_prune_recomputes :
    (find_possible_glaciers [1] true
          ((find_possible_glaciers [1] true (EvalState.mk none 0)).2)).2.simCount = 2 ∧
      (2 : ℕ) ≠ 1 :=
  ⟨by decide, by decide⟩

/-! ## C7 -/

/-- C7 (code bug): on `exTableC7` the code's `median_fls` selection is row 1
— the length-median of the *observation*-fitness 5th-percentile subset
(`results_exp`), at the fls subset's median index — while the spec's
`median_fls` is row 3, the length-median of the fls-fitness 5th-percentile
subset itself. -/
theorem median_fls_mismatch :
    median_fls_code exTableC7 = some 1 ∧ median_fls_spec exTableC7 = some 3 ∧
      (1 : ℕ) ≠ 3 :=
  ⟨by decide, by decide, by decide⟩

/-! ## C8 -/

/-- Symmetry of the elementwise sum of squared differences. -/
theorem sqDiffSum_comm (a b : List ℚ) : sqDiffSum a b = sqDiffSum b a := by
  induction a generalizing b with
  | nil => cases b <;> simp [sqDiffSum]
  | cons x xs ih =>
    cases b with
    | nil => simp [sqDiffSum]
    | cons y ys =>
      have h := ih ys
      simp only [sqDiffSum, List.zip_cons_cons, List.map_cons, List.sum_cons] at h ⊢
      rw [h]; ring_nf

/-- The accumulation of `fitness_value` is symmetric on structurally
matching states. -/
theorem fitnessAux_symm (fls1 fls2 : List Seg) (h : flsMatch fls1 fls2 = true) :
    fitnessAux fls1 fls2 = fitnessAux fls2 fls1 := by
  induction fls1 generalizing fls2 with
  | nil => cases fls2 with
    | nil => rfl
    | cons s t => simp [flsMatch] at h
  | cons s1 t1 ih =>
    cases fls2 with
    | nil => simp [flsMatch] at h
    | cons s2 t2 =>
      simp only [flsMatch, Bool.and_eq_true, decide_eq_true_eq] at h
      obtain ⟨⟨h1, h2⟩, h3⟩ := h
      simp only [fitnessAux, h1, h2, and_self, if_true, ih t2 h3,
        sqDiffSum_comm s1.surface_h s2.surface_h, sqDiffSum_comm s1.widths s2.widths]

/-- C8 (confirmed): on two states of the same glacier (equal flowline count
and array shapes, as always holds at the observation year for one glacier
directory), `fitness_value` is symmetric in its two compared states. -/
theorem fitness_value_symm (fls1 fls2 : List Seg) (h : flsMatch fls1 fls2 = true) :
    fitness_value fls1 fls2 = fitness_value fls2 fls1 := by
  unfold fitness_value
  rw [fitnessAux_symm fls1 fls2 h]

/-- Witness for C8 on a concrete pair of single-segment states. -/
theorem fitness_value_symm_witness :
    flsMatch exState1 exState2 = true ∧
      fitness_value exState1 exState2 = fitness_value exState2 exState1 :=
  ⟨by decide, fitness_value_symm exState1 exState2 (by decide)⟩

/-! ## Helper lemmas for column minima -/

/-- A left fold of `min` lands on one of the folded values. -/
theorem foldl_min_mem (xs : List ℚ) : ∀ x : ℚ, xs.foldl min x ∈ x :: xs := by
  induction xs with
  | nil => intro x; simp
  | cons y ys ih =>
    intro x
    simp only [List.foldl_cons]
    rcases List.mem_cons.1 (ih (min x y)) with h1 | h1
    · rw [h1]
      rcases le_total x y with hxy | hxy
      · simp [min_eq_left hxy]
      · simp [min_eq_right hxy]
    · exact List.mem_cons.2 (Or.inr (List.mem_cons.2 (Or.inr h1)))

/-- A left fold of `min` bounds every folded value from below. -/
theorem foldl_min_le (xs : List ℚ) : ∀ x : ℚ, ∀ a ∈ x :: xs, xs.foldl min x ≤ a := by
  induction xs with
  | nil => intro x a ha; simp at ha; simp [ha]
  | cons y ys ih =>
    intro x a ha
    simp only [List.foldl_cons]
    rcases List.mem_cons.1 ha with h1 | h1
    · calc ys.foldl min (min x y) ≤ min x y :=
            ih (min x y) (min x y) (List.mem_cons_self _ _)
        _ ≤ a := by rw [h1]; exact min_le_left _ _
    · rcases List.mem_cons.1 h1 with h2 | h2
      · calc ys.foldl min (min x y) ≤ min x y :=
              ih (min x y) (min x y) (List.mem_cons_self _ _)
          _ ≤ a := by rw [h2]; exact min_le_right _ _
      · exact ih (min x y) a (List.mem_cons.2 (Or.inr h2))

/-- The pandas column minimum is one of the column's values. -/
theorem colMin_mem {l : List ℚ} {m : ℚ} (h : colMin l = some m) : m ∈ l := by
  cases l with
  | nil => simp [colMin] at h
  | cons x xs =>
    simp only [colMin, Option.some.injEq] at h
    simpa [h] using foldl_min_mem xs x

/-- The pandas column minimum bounds every value of the column. -/
theorem colMin_le {l : List ℚ} {m : ℚ} (h : colMin l = some m) :
    ∀ a ∈ l, m ≤ a := by
  cases l with
  | nil => simp [colMin] at h
  | cons x xs =>
    simp only [colMin, Option.some.injEq] at h
    intro a ha
    simpa [h] using foldl_min_le xs x a ha

/-- `colMin` is `none` exactly on the empty column. -/
theorem colMin_eq_none {l : List ℚ} (h : colMin l = none) : l = [] := by
  cases l with
  | nil => rfl
  | cons x xs => simp [colMin] at h

/-! ## C3 -/

/-- C3 (corrected): the generator extends the bias range to `[-5, -3)` if
and only if the bias `-3` run succeeded, i.e. `-3` is present in the
first-stage ensemble table — regardless of that member's minimum simulated
volume.  (The minimum-volume-is-zero test gates only the upward extension
to `(2, 3]`.) -/
theorem generation_down_extension_iff (runs : ℚ → Option (List ℚ)) :
    downExtended runs ↔ (runs (-3)).isSome = true := by
  constructor
  · intro h
    have hm : (-3 : ℚ) ∈ ensembleBiases runs := colMin_mem h
    have := List.of_mem_filter hm
    simpa using this
  · intro h
    have hmem : (-3 : ℚ) ∈ ensembleBiases runs := by
      refine List.mem_filter.2 ⟨?_, by simpa using h⟩
      decide
    cases hcm : colMin (ensembleBiases runs) with
    | none => exact absurd hcm (by simp [colMin_eq_none hcm] at hmem)
    | some m =>
      have hle : m ≤ -3 := colMin_le hcm _ hmem
      have hgrid : m ∈ biasGrid1 := List.mem_of_mem_filter (colMin_mem hcm)
      have hge : (-3 : ℚ) ≤ m := by
        have hall : ∀ b ∈ biasGrid1, (-3 : ℚ) ≤ b := by decide
        exact hall m hgrid
      unfold downExtended
      rw [hcm]
      exact congrArg some (le_antisymm hle hge)

/-- Counterexample for C3 as stated: when every run succeeds with volume
series `[0]`, the bias `-3` member exists with minimum volume exactly zero,
yet the `[-5, -3)` extension still takes place (its guard is
`temp_bias.min() == -3`, not the member's volume). -/
theorem generation_down_extension_counterexample : ¬ claimC3 allZeroRuns := by
  intro h
  have hd : downExtended allZeroRuns := by unfold downExtended; decide
  obtain ⟨q, hq, hne⟩ := h.mp hd
  have h0 : memberMinVol allZeroRuns (-3) = some 0 := by decide
  exact hne (Option.some.inj (h0.symm.trans hq)).symm

/-! ## Helper lemma for the candidate identifier -/

/-- When some row satisfies the predicate, `firstIdxP` indexes a satisfying
row. -/
theorem firstIdxP_spec {p : CRow → Bool} {l : List CRow}
    (h : ∃ r ∈ l, p r = true) :
    ∃ r, l.get? (firstIdxP p l) = some r ∧ p r = true := by
  induction l with
  | nil => obtain ⟨r, hr, _⟩ := h; cases hr
  | cons x xs ih =>
    by_cases hx : p x = true
    · exact ⟨x, by simp [firstIdxP, hx], hx⟩
    · obtain ⟨r, hr, hpr⟩ := h
      have hr2 : r ∈ xs := by
        rcases List.mem_cons.1 hr with h1 | h1
        · exact absurd (h1 ▸ hpr) hx
        · exact h1
      obtain ⟨r2, h1, h2⟩ := ih ⟨r, hr2, hpr⟩
      refine ⟨r2, ?_, h2⟩
      have hx2 : p x = false := by revert hx; cases p x <;> simp
      simp only [firstIdxP, hx2, Bool.false_eq_true, if_false]
      exact h1

/-! ## C4 -/

/-- C4 (corrected): on a non-empty restricted volume table,
`identification` with `n = 1` returns exactly one candidate — but it is a
row whose volume is the table's *minimum* restricted volume
(`np.linspace(min, max, 1)` is `[min]`), not the midpoint of minimum and
maximum. -/
theorem identification_n1 (rows : List CRow) (h : rows ≠ []) :
    ∃ r, r ∈ rows ∧ identification rows 1 = [(r.time, r.sfx)] ∧
      r.vol = volMin rows := by
  obtain ⟨M, hM⟩ : ∃ M, colMin (rows.map (fun r => r.vol)) = some M := by
    cases rows with
    | nil => exact absurd rfl h
    | cons x xs => exact ⟨_, rfl⟩
  have hvolMin : volMin rows = M := by simp [volMin, hM]
  -- the distance column to the target `volMin` has minimum zero
  obtain ⟨r0, hr0_mem, hr0_vol⟩ : ∃ r ∈ rows, r.vol = M := by
    have := colMin_mem hM
    simpa using this
  have h0mem : (0 : ℚ) ∈ rows.map (fun r => |r.vol - M|) := by
    refine List.mem_map.2 ⟨r0, hr0_mem, ?_⟩
    simp [hr0_vol]
  obtain ⟨D, hD⟩ : ∃ D, colMin (rows.map (fun r => |r.vol - M|)) = some D := by
    cases hc : colMin (rows.map (fun r => |r.vol - M|)) with
    | none => rw [colMin_eq_none hc] at h0mem; cases h0mem
    | some d => exact ⟨d, rfl⟩
  have hD0 : D = 0 := by
    have hle := colMin_le hD _ h0mem
    have hmem := colMin_mem hD
    obtain ⟨r1, _, hr1⟩ := List.mem_map.1 hmem
    have : 0 ≤ D := hr1 ▸ abs_nonneg _
    linarith
  -- the selected index points at a row of minimal volume
  obtain ⟨r1, hget, hp⟩ :=
    firstIdxP_spec (p := fun r => decide (|r.vol - M| = (0 : ℚ))) (l := rows)
      ⟨r0, hr0_mem, by simp [hr0_vol]⟩
  have hidx : closestIdx rows M = firstIdxP (fun r => decide (|r.vol - M| = (0 : ℚ))) rows := by
    simp only [closestIdx, hD, hD0, Option.getD_some]
  have hr1_vol : r1.vol = M := by
    have := of_decide_eq_true hp
    have habs := abs_eq_zero.1 this
    linarith
  refine ⟨r1, List.get?_mem hget, ?_, by rw [hr1_vol, hvolMin]⟩
  unfold identification
  rw [hvolMin]
  simp only [linspace, if_false, if_true, one_ne_zero, reduceIte]
  simp only [selectIdxs, List.foldl_cons, List.foldl_nil, List.not_mem_nil, if_false,
    List.nil_append, hidx]
  simp only [List.filterMap, hget]
  simp [sortCand, insertCand, dedupRows]

/-- Witness for C4 on a one-row table. -/
theorem identification_n1_witness :
    ∃ r, r ∈ [CRow.mk 7 5 3] ∧ identification [CRow.mk 7 5 3] 1 = [(r.time, r.sfx)] ∧
      r.vol = volMin [CRow.mk 7 5 3] :=
  identification_n1 [CRow.mk 7 5 3] (by decide)

/-- Counterexample for C4 as stated: on the table with volumes 0, 4, 10 the
code returns the (time, member) pair of the volume-0 row (the minimum),
while the pair closest to the midpoint volume 5 is the volume-4 row. -/
theorem identification_n1_counterexample :
    identification exRowsC4 1 = [(0, 0)] ∧ specMidpointChoice exRowsC4 = some (1, 1) ∧
      ((0, 0) : ℕ × ℕ) ≠ (1, 1) :=
  ⟨by decide, by decide, by decide⟩

/-! ## Helper lemmas for the calibrator -/

/-- The iteration log gains at most one entry per loop iteration. -/
theorem calibLoop_len (run : ℚ → Option ℚ) (A : ℚ) :
    ∀ fuel b0 b1 log, (calibLoop run A fuel b0 b1 log).1.length ≤ log.length + fuel := by
  intro fuel
  induction fuel with
  | zero => intro b0 b1 log; simp [calibLoop]
  | succ n ih =>
    intro b0 b1 log
    simp only [calibLoop]
    cases hr : run (round2 ((b0 + b1) / 2)) with
    | none =>
      simp only [Option.map_none']
      have := ih (round2 ((b0 + b1) / 2)) b1 (log ++ [(round2 ((b0 + b1) / 2), none)])
      simp only [List.length_append, List.length_cons, List.length_nil] at this
      omega
    | some area =>
      simp only [Option.map_some']
      by_cases hbrk : |A - area| < 1 / 10000 ∨ (b1 - b0 ≤ 1 / 2 ∧ |A - area| < 1 / 1000)
      · simp only [hbrk, if_true, List.length_append, List.length_cons, List.length_nil]
        omega
      · simp only [hbrk, if_false]
        by_cases hneg : A - area < 0
        · simp only [hneg, if_true]
          have := ih (round2 ((b0 + b1) / 2)) b1
            (log ++ [(round2 ((b0 + b1) / 2), some (A - area))])
          simp only [List.length_append, List.length_cons, List.length_nil] at this
          omega
        · simp only [hneg, if_false]
          have := ih b0 (round2 ((b0 + b1) / 2))
            (log ++ [(round2 ((b0 + b1) / 2), some (A - area))])
          simp only [List.length_append, List.length_cons, List.length_nil] at this
          omega

/-- The iteration log never shrinks. -/
theorem calibLoop_len_ge (run : ℚ → Option ℚ) (A : ℚ) :
    ∀ fuel b0 b1 log, log.length ≤ (calibLoop run A fuel b0 b1 log).1.length := by
  intro fuel
  induction fuel with
  | zero => intro b0 b1 log; simp [calibLoop]
  | succ n ih =>
    intro b0 b1 log
    simp only [calibLoop]
    cases hr : run (round2 ((b0 + b1) / 2)) with
    | none =>
      simp only [Option.map_none']
      have := ih (round2 ((b0 + b1) / 2)) b1 (log ++ [(round2 ((b0 + b1) / 2), none)])
      simp only [List.length_append, List.length_cons, List.length_nil] at this
      omega
    | some area =>
      simp only [Option.map_some']
      by_cases hbrk : |A - area| < 1 / 10000 ∨ (b1 - b0 ≤ 1 / 2 ∧ |A - area| < 1 / 1000)
      · simp only [hbrk, if_true, List.length_append, List.length_cons, List.length_nil]
        omega
      · simp only [hbrk, if_false]
        by_cases hneg : A - area < 0
        · simp only [hneg, if_true]
          have := ih (round2 ((b0 + b1) / 2)) b1
            (log ++ [(round2 ((b0 + b1) / 2), some (A - area))])
          simp only [List.length_append, List.length_cons, List.length_nil] at this
          omega
        · simp only [hneg, if_false]
          have := ih b0 (round2 ((b0 + b1) / 2))
            (log ++ [(round2 ((b0 + b1) / 2), some (A - area))])
          simp only [List.length_append, List.length_cons, List.length_nil] at this
          omega

/-- With at least one loop iteration left, the log grows strictly. -/
theorem calibLoop_len_pos (run : ℚ → Option ℚ) (A : ℚ) (fuel : ℕ) (b0 b1 : ℚ)
    (log : List (ℚ × Option ℚ)) :
    log.length + 1 ≤ (calibLoop run A (fuel + 1) b0 b1 log).1.length := by
  simp only [calibLoop]
  cases hr : run (round2 ((b0 + b1) / 2)) with
  | none =>
    simp only [Option.map_none']
    have := calibLoop_len_ge run A fuel (round2 ((b0 + b1) / 2)) b1
      (log ++ [(round2 ((b0 + b1) / 2), none)])
    simp only [List.length_append, List.length_cons, List.length_nil] at this
    omega
  | some area =>
    simp only [Option.map_some']
    by_cases hbrk : |A - area| < 1 / 10000 ∨ (b1 - b0 ≤ 1 / 2 ∧ |A - area| < 1 / 1000)
    · simp only [hbrk, if_true, List.length_append, List.length_cons, List.length_nil]
      omega
    · simp only [hbrk, if_false]
      by_cases hneg : A - area < 0
      · simp only [hneg, if_true]
        have := calibLoop_len_ge run A fuel (round2 ((b0 + b1) / 2)) b1
          (log ++ [(round2 ((b0 + b1) / 2), some (A - area))])
        simp only [List.length_append, List.length_cons, List.length_nil] at this
        omega
      · simp only [hneg, if_false]
        have := calibLoop_len_ge run A fuel b0 (round2 ((b0 + b1) / 2))
          (log ++ [(round2 ((b0 + b1) / 2), some (A - area))])
        simp only [List.length_append, List.length_cons, List.length_nil] at this
        omega

/-- Every entry of the final iteration log is an inherited entry or the
evaluation of the loop at some two-decimal-rounded midpoint. -/
theorem calibLoop_entries (run : ℚ → Option ℚ) (A : ℚ) :
    ∀ fuel b0 b1 log e, e ∈ (calibLoop run A fuel b0 b1 log).1 →
      e ∈ log ∨ ∃ q, e = (round2 q, (run (round2 q)).map (fun area => A - area)) := by
  intro fuel
  induction fuel with
  | zero => intro b0 b1 log e he; exact Or.inl (by simpa [calibLoop] using he)
  | succ n ih =>
    intro b0 b1 log e he
    simp only [calibLoop] at he
    cases hr : run (round2 ((b0 + b1) / 2)) with
    | none =>
      rw [hr] at he
      simp only [Option.map_none'] at he
      rcases ih _ _ _ _ he with hin | hq
      · rcases List.mem_append.1 hin with h1 | h1
        · exact Or.inl h1
        · refine Or.inr ⟨(b0 + b1) / 2, ?_⟩
          rw [hr]
          simpa using h1
      · exact Or.inr hq
    | some area =>
      rw [hr] at he
      simp only [Option.map_some'] at he
      by_cases hbrk : |A - area| < 1 / 10000 ∨ (b1 - b0 ≤ 1 / 2 ∧ |A - area| < 1 / 1000)
      · simp only [hbrk, if_true] at he
        rcases List.mem_append.1 he with h1 | h1
        · exact Or.inl h1
        · refine Or.inr ⟨(b0 + b1) / 2, ?_⟩
          rw [hr]
          simpa using h1
      · simp only [hbrk, if_false] at he
        by_cases hneg : A - area < 0
        · simp only [hneg, if_true] at he
          rcases ih _ _ _ _ he with hin | hq
          · rcases List.mem_append.1 hin with h1 | h1
            · exact Or.inl h1
            · refine Or.inr ⟨(b0 + b1) / 2, ?_⟩
              rw [hr]
              simpa using h1
          · exact Or.inr hq
        · simp only [hneg, if_false] at he
          rcases ih _ _ _ _ he with hin | hq
          · rcases List.mem_append.1 hin with h1 | h1
            · exact Or.inl h1
            · refine Or.inr ⟨(b0 + b1) / 2, ?_⟩
              rw [hr]
              simpa using h1
          · exact Or.inr hq

/-- When the loop leaves through its tolerance test, some logged iteration
has absolute area difference below `1e-3`. -/
theorem calibLoop_conv (run : ℚ → Option ℚ) (A : ℚ) :
    ∀ fuel b0 b1 log, (calibLoop run A fuel b0 b1 log).2 = true →
      ∃ m d, (m, some d) ∈ (calibLoop run A fuel b0 b1 log).1 ∧ |d| < 1 / 1000 := by
  intro fuel
  induction fuel with
  | zero => intro b0 b1 log hc; simp [calibLoop] at hc
  | succ n ih =>
    intro b0 b1 log hc
    simp only [calibLoop] at hc ⊢
    cases hr : run (round2 ((b0 + b1) / 2)) with
    | none =>
      rw [hr] at hc
      simp only [Option.map_none'] at hc ⊢
      exact ih _ _ _ hc
    | some area =>
      rw [hr] at hc
      simp only [Option.map_some'] at hc ⊢
      by_cases hbrk : |A - area| < 1 / 10000 ∨ (b1 - b0 ≤ 1 / 2 ∧ |A - area| < 1 / 1000)
      · simp only [hbrk, if_true] at hc ⊢
        refine ⟨round2 ((b0 + b1) / 2), A - area, by simp, ?_⟩
        rcases hbrk with h1 | h2
        · linarith [h1]
        · exact h2.2
      · simp only [hbrk, if_false] at hc ⊢
        by_cases hneg : A - area < 0
        · simp only [hneg, if_true] at hc ⊢
          exact ih _ _ _ hc
        · simp only [hneg, if_false] at hc ⊢
          exact ih _ _ _ hc

/-- A true `absKeyLt` gives the propositional order. -/
theorem absKeyLt_le {a b : Option ℚ} (h : absKeyLt a b = true) : keyLE a b := by
  cases a <;> cases b <;> simp [absKeyLt, keyLE] at h ⊢ <;> linarith

/-- A false `absKeyLt` gives the reversed propositional order. -/
theorem absKeyLt_not_le {a b : Option ℚ} (h : absKeyLt a b = false) : keyLE b a := by
  cases a <;> cases b <;> simp [absKeyLt, keyLE] at h ⊢ <;> linarith

/-- Reflexivity of `keyLE`. -/
theorem keyLE_refl (a : Option ℚ) : keyLE a a := by
  cases a <;> simp [keyLE]

/-- Transitivity of `keyLE`. -/
theorem keyLE_trans {a b c : Option ℚ} (h1 : keyLE a b) (h2 : keyLE b c) : keyLE a c := by
  cases a <;> cases b <;> cases c <;> simp [keyLE] at h1 h2 ⊢ <;> linarith

/-- The `idxmin` fold stays within the candidate rows. -/
theorem selectBest_fold_mem (rest : List (ℚ × Option ℚ)) :
    ∀ e0, rest.foldl (fun best x => if absKeyLt x.2 best.2 then x else best) e0 ∈ e0 :: rest := by
  induction rest with
  | nil => intro e0; simp
  | cons x t ih =>
    intro e0
    simp only [List.foldl_cons]
    rcases List.mem_cons.1 (ih (if absKeyLt x.2 e0.2 then x else e0)) with h1 | h1
    · rw [h1]
      by_cases hx : absKeyLt x.2 e0.2 = true
      · simp [hx]
      · simp only [Bool.not_eq_true] at hx
        simp [hx]
    · exact List.mem_cons.2 (Or.inr (List.mem_cons.2 (Or.inr h1)))

/-- The `idxmin` fold result is a key-minimal row. -/
theorem selectBest_fold_min (rest : List (ℚ × Option ℚ)) :
    ∀ e0 e, e ∈ e0 :: rest →
      keyLE (rest.foldl (fun best x => if absKeyLt x.2 best.2 then x else best) e0).2 e.2 := by
  induction rest with
  | nil =>
    intro e0 e he
    rcases List.mem_cons.1 he with h1 | h1
    · rw [h1]; simp only [List.foldl_nil]; exact keyLE_refl _
    · cases h1
  | cons x t ih =>
    intro e0 e he
    simp only [List.foldl_cons]
    by_cases hx : absKeyLt x.2 e0.2 = true
    · simp only [hx, if_true]
      rcases List.mem_cons.1 he with h1 | h1
      · exact keyLE_trans (ih x x (List.mem_cons_self _ _)) (h1 ▸ absKeyLt_le hx)
      · rcases List.mem_cons.1 h1 with h2 | h2
        · exact h2 ▸ ih x x (List.mem_cons_self _ _)
        · exact ih x e (List.mem_cons.2 (Or.inr h2))
    · simp only [Bool.not_eq_true] at hx
      simp only [hx, Bool.false_eq_true, if_false]
      rcases List.mem_cons.1 he with h1 | h1
      · exact h1 ▸ ih e0 e0 (List.mem_cons_self _ _)
      · rcases List.mem_cons.1 h1 with h2 | h2
        · exact keyLE_trans (ih e0 e0 (List.mem_cons_self _ _)) (h2 ▸ absKeyLt_not_le hx)
        · exact ih e0 e (List.mem_cons.2 (Or.inr h2))

/-- `selectBest` picks a row of the log. -/
theorem selectBest_mem {l : List (ℚ × Option ℚ)} (h : l ≠ []) : selectBest l ∈ l := by
  cases l with
  | nil => exact absurd rfl h
  | cons e rest => exact selectBest_fold_mem rest e

/-- `selectBest` picks a row of minimal absolute area difference. -/
theorem selectBest_min {l : List (ℚ × Option ℚ)} :
    ∀ e ∈ l, keyLE (selectBest l).2 e.2 := by
  cases l with
  | nil => intro e he; cases he
  | cons e0 rest => exact fun e he => selectBest_fold_min rest e0 e he

/-- Two-decimal grid values keep a distance of at least `1/300` from `1/3`. -/
theorem grid_gap (k : ℤ) : (1 : ℚ) / 300 ≤ |(k : ℚ) / 100 - 1 / 3| := by
  have h3 : (3 * k - 100 : ℤ) ≠ 0 := by omega
  have h1 : (1 : ℚ) ≤ |((3 * k - 100 : ℤ) : ℚ)| := by exact_mod_cast Int.one_le_abs h3
  have he : (k : ℚ) / 100 - 1 / 3 = ((3 * k - 100 : ℤ) : ℚ) / 300 := by push_cast; ring
  rw [he, abs_div, abs_of_pos (by norm_num : (0 : ℚ) < 300)]
  linarith

/-! ## C1 -/

/-- C1 (corrected): `find_mb_offset` always logs at most 15 iterations and
retains the logged offset of minimal absolute area difference; whenever the
loop exits through its tolerance test, that retained offset's area
difference is below `1e-3` (indeed below `1e-4` when the first tolerance
fired).  When the iteration budget is exhausted instead, no tolerance is
guaranteed — even for a monotone oracle with a reachable target (see the
counterexample). -/
theorem find_mb_offset_best_effort (run : ℚ → Option ℚ) (A : ℚ) :
    (find_mb_offset run A).log.length ≤ 15 ∧
      ((find_mb_offset run A).conv = true →
        ∃ d, (find_mb_offset run A).best.2 = some d ∧ |d| < 1 / 1000) := by
  constructor
  · have h := calibLoop_len run A 15 (-1000) 1000 []
    simpa [find_mb_offset] using h
  · intro hc
    have hcv : (calibLoop run A 15 (-1000) 1000 []).2 = true := hc
    obtain ⟨m, d, hmem, hd⟩ := calibLoop_conv run A 15 (-1000) 1000 [] hcv
    have hmin := selectBest_min _ hmem
    cases hbest : (selectBest (calibLoop run A 15 (-1000) 1000 []).1).2 with
    | none => rw [hbest] at hmin; exact absurd hmin (by simp [keyLE])
    | some d2 =>
      refine ⟨d2, hbest, ?_⟩
      rw [hbest] at hmin
      simp only [keyLE] at hmin
      linarith

/-- Witness for C1: a unit-slope oracle whose target is met exactly at the
first midpoint converges, and the theorem yields its sub-`1e-3` selected
difference. -/
theorem find_mb_offset_best_effort_witness :
    ∃ d, (find_mb_offset (fun x => some (100 - x)) 100).best.2 = some d ∧
      |d| < 1 / 1000 :=
  (find_mb_offset_best_effort (fun x => some (100 - x)) 100).2 (by decide)

/-- Counterexample for C1 as stated: the oracle `cRun` is monotone in the
offset and attains the observed area 100 at offset `1/3 ∈ [-1000, 1000]`,
yet every midpoint `find_mb_offset` can evaluate is a two-decimal rational,
so every logged area difference — and hence the selected one — has absolute
value at least `1/300 > 1e-3`: the tolerance of the claim is never met. -/
theorem find_mb_offset_no_convergence :
    cRun (1 / 3) = some 100 ∧ cRunMono ∧ ¬claimC1 cRun 100 := by
  refine ⟨by norm_num [cRun], fun x y hxy => by linarith, ?_⟩
  rintro ⟨d, hbest, hd⟩
  have hne : (calibLoop cRun 100 15 (-1000) 1000 []).1 ≠ [] := by
    have h := calibLoop_len_pos cRun 100 14 (-1000) 1000 []
    intro h0
    rw [h0] at h
    simp at h
  have hmem := selectBest_mem hne
  rcases calibLoop_entries cRun 100 15 (-1000) 1000 []
      (selectBest (calibLoop cRun 100 15 (-1000) 1000 []).1) hmem with h0 | ⟨q, hq⟩
  · cases h0
  · have hb2 : (find_mb_offset cRun 100).best =
        selectBest (calibLoop cRun 100 15 (-1000) 1000 []).1 := rfl
    rw [hb2, hq] at hbest
    simp only [cRun, Option.map_some'] at hbest
    have hdval : d = round2 q - 1 / 3 := by
      have := Option.some.inj hbest
      linarith [this]
    have hgap : (1 : ℚ) / 300 ≤ |d| := by
      rw [hdval]
      simpa [round2] using grid_gap (roundHE (100 * q))
    rcases hd with h1 | h1 <;> linarith

/-! ## C5 -/

/-- When every simulation fails, the loop runs all its iterations, logging
failures and pushing `bounds[0]` up each time. -/
theorem calibLoop_all_fail (run : ℚ → Option ℚ) (hrun : ∀ x, run x = none) (A : ℚ) :
    ∀ fuel b0 b1 log,
      calibLoop run A fuel b0 b1 log = (log ++ noneTrace fuel b0 b1, false) := by
  intro fuel
  induction fuel with
  | zero => intro b0 b1 log; simp [calibLoop, noneTrace]
  | succ n ih =>
    intro b0 b1 log
    simp only [calibLoop, hrun, Option.map_none']
    rw [ih]
    simp [noneTrace]

/-- C5 (corrected): when every bisection iteration fails with an error
string, `find_mb_offset` still completes without raising: all 15 logged
iterations carry `area_diff = -inf` (`none`), the loop never converges,
and — because `abs(-inf)` ties at `+inf` on every row and `idxmin` keeps
the first row — the *first* iteration's offset `0.0` (the initial
midpoint) is singled out as `mb_offset` for the file-retention step. -/
theorem find_mb_offset_all_fail (run : ℚ → Option ℚ) (A : ℚ)
    (hrun : ∀ x, run x = none) :
    (find_mb_offset run A).log.length = 15 ∧
      (∀ e ∈ (find_mb_offset run A).log, e.2 = none) ∧
      (find_mb_offset run A).best = (0, none) ∧
      (find_mb_offset run A).conv = false := by
  have h := calibLoop_all_fail run hrun A 15 (-1000) 1000 []
  have hl : (find_mb_offset run A).log = noneTrace 15 (-1000) 1000 := by
    simp [find_mb_offset, h]
  have hb : (find_mb_offset run A).best = selectBest (noneTrace 15 (-1000) 1000) := by
    simp [find_mb_offset, h]
  have hc : (find_mb_offset run A).conv = false := by
    simp [find_mb_offset, h]
  refine ⟨by rw [hl]; decide, by rw [hl]; decide, by rw [hb]; decide, hc⟩

/-- Witness for C5 at the concrete all-failing oracle. -/
theorem find_mb_offset_all_fail_witness :
    (find_mb_offset (fun _ => none) 100).log.length = 15 ∧
      (∀ e ∈ (find_mb_offset (fun _ => none) 100).log, e.2 = none) ∧
      (find_mb_offset (fun _ => none) 100).best = (0, none) ∧
      (find_mb_offset (fun _ => none) 100).conv = false :=
  find_mb_offset_all_fail (fun _ => none) 100 (fun _ => rfl)

/-- Counterexample for C5 as stated: with every iteration failing, an
offset (the initial midpoint `0.0`) *is* singled out for retention, against
the claim that no iteration's offset is retained. -/
theorem find_mb_offset_all_fail_counterexample :
    (find_mb_offset (fun _ => none) 100).best = (0, none) ∧
      (find_mb_offset (fun _ => none) 100).log.length = 15 :=
  ⟨by decide, by decide⟩

/-! ## Helper lemmas for the filename round-trip -/

/-- `split` never returns an empty token list. -/
theorem splitOnC_ne_nil (c : Char) (s : Str) : splitOnC c s ≠ [] := by
  induction s with
  | nil => simp [splitOnC]
  | cons x xs ih =>
    cases hs : splitOnC c xs with
    | nil => exact absurd hs ih
    | cons h t =>
      by_cases hx : x = c <;> simp [splitOnC, hs, hx]

/-- Splitting distributes over one separator occurrence. -/
theorem splitOnC_append (c : Char) (a b : Str) :
    splitOnC c (a ++ c :: b) = splitOnC c a ++ splitOnC c b := by
  induction a with
  | nil =>
    cases hs : splitOnC c b with
    | nil => exact absurd hs (splitOnC_ne_nil c b)
    | cons h t => simp [splitOnC, hs]
  | cons x a2 ih =>
    cases ha : splitOnC c a2 with
    | nil => exact absurd ha (splitOnC_ne_nil c a2)
    | cons h t =>
      simp only [List.cons_append, splitOnC, List.append_eq, ih, ha]
      by_cases hx : x = c <;> simp [hx]

/-- A separator-free string splits into itself. -/
theorem splitOnC_no_sep (c : Char) (s : Str) (h : ∀ ch ∈ s, ch ≠ c) :
    splitOnC c s = [s] := by
  induction s with
  | nil => rfl
  | cons x xs ih =>
    have hx : x ≠ c := h x (List.mem_cons_self _ _)
    have hxs := ih (fun ch hch => h ch (List.mem_cons.2 (Or.inr hch)))
    simp [splitOnC, hxs, hx]

/-- `.nc` cannot begin across the boundary of `body ++ ".nc"`: it has no
self-overlap, so a prefix occurrence there forces one inside `body`. -/
theorem ncPat_boundary (x : Char) (xs : Str)
    (h : ncPat.isPrefixOf (x :: xs) = false) :
    ncPat.isPrefixOf (x :: (xs ++ ncPat)) = false := by
  cases xs with
  | nil => simp [ncPat, List.isPrefixOf]
  | cons y ys =>
    cases ys with
    | nil => simp [ncPat, List.isPrefixOf]
    | cons z rest =>
      simp only [ncPat, List.cons_append, List.isPrefixOf] at h ⊢
      simpa using h

/-- `split('.nc')[0]` of a path that ends in `.nc` and whose stem contains
no `.nc` is exactly the stem. -/
theorem takeBeforeNc_append (body : Str) (h : hasNc body = false) :
    takeBeforeNc (body ++ ncPat) = body := by
  induction body with
  | nil => decide
  | cons x xs ih =>
    have h2 : ncPat.isPrefixOf (x :: xs) = false ∧ hasNc xs = false := by
      have := h
      simp only [hasNc, Bool.or_eq_false_iff] at this
      exact this
    have hb := ncPat_boundary x xs h2.1
    have hg : takeBeforeNc ((x :: xs) ++ ncPat) =
        if ncPat.isPrefixOf (x :: (xs ++ ncPat))
        then [] else x :: takeBeforeNc (xs ++ ncPat) := rfl
    rw [hg, hb]
    simp [ih h2.2]

/-- The rendered bias strings contain no underscore (checked over the whole
generation grid). -/
theorem bias_no_underscore : ∀ b ∈ allGenBiases, ∀ ch ∈ renderBias b, ch ≠ '_' := by
  decide

/-- Parsing a rendered grid bias returns exactly the requested value
(Python `float(str(b)) == b` for these representable decimals). -/
theorem bias_parse_roundtrip : ∀ b ∈ allGenBiases, parseDec (renderBias b) = some b := by
  decide

/-! ## C9 -/

/-- C9 (confirmed): for every successful (seed, bias) run with a bias from
the generation grids, an underscore-free seed string and a path stem free
of `.nc`, `_run_random_parallel` recovers from the returned file path the
seed string, the requested temperature bias (as `float`), and a suffix
exactly equal to the output filesuffix `_run_random_task` used. -/
theorem run_random_roundtrip (dirS y0s seedS : Str) (b : ℚ)
    (hb : b ∈ allGenBiases)
    (hsd : ∀ ch ∈ seedS, ch ≠ '_')
    (hnc : hasNc (taskPathBody dirS y0s seedS (renderBias b)) = false) :
    parseRow y0s (taskPath dirS y0s seedS (renderBias b)) =
      ⟨seedS, some b, taskSuffix y0s seedS (renderBias b)⟩ := by
  have hbias := bias_no_underscore b hb
  have hparse := bias_parse_roundtrip b hb
  have hbase : takeBeforeNc (taskPathBody dirS y0s seedS (renderBias b) ++ ncPat) =
      taskPathBody dirS y0s seedS (renderBias b) := takeBeforeNc_append _ hnc
  have hbody : taskPathBody dirS y0s seedS (renderBias b) =
      (dirS ++ '/' :: y0s ++ '/' :: ("model_geometry".toList) ++ y0s ++
          '_' :: ("random".toList)) ++ '_' :: (seedS ++ '_' :: renderBias b) := by
    simp [taskPathBody, taskSuffix]
  have hsplit : splitOnC '_' (taskPathBody dirS y0s seedS (renderBias b)) =
      (splitOnC '_' (dirS ++ '/' :: y0s ++ '/' :: ("model_geometry".toList) ++ y0s ++
          '_' :: ("random".toList)) ++ [seedS]) ++ [renderBias b] := by
    rw [hbody, splitOnC_append, splitOnC_append '_' seedS (renderBias b),
      splitOnC_no_sep '_' seedS hsd, splitOnC_no_sep '_' (renderBias b) hbias]
    simp
  simp only [parseRow, taskPath, hbase, hsplit, List.getLastD_concat,
    List.dropLast_concat, hparse, taskSuffix]

/-- Witness for C9: glacier directory `/tmp/g1`, reference year 1850, seed
16, requested bias `-3.0`; the parsed row carries the seed, the bias and
the task's own suffix. -/
theorem run_random_roundtrip_witness :
    parseRow ("1850".toList)
        (taskPath ("/tmp/g1".toList) ("1850".toList) ("16".toList) (renderBias (-3))) =
      ⟨"16".toList, some (-3), taskSuffix ("1850".toList) ("16".toList) (renderBias (-3))⟩ :=
  run_random_roundtrip _ _ _ _ (by decide) (by decide) (by decide)
